import Mathlib

/-!
# Verification of the streaming event protocol of `ihower/openai-agents-python`

This file shallowly embeds the event-synthesis and tool-context code of the
repository and proves the spec's claims about it.

* `FakeModel.stream_response` / `FakeModel.get_response`
  (`tests/fake_model.py`) are embedded as pure functions: the batch output of
  a turn is turned into the canonical `RawEvent` sequence exactly as the
  generator in the source yields events, threading the `sequence_number`
  counter explicitly.
* The run-item synthesizer and the run loop (the `Runner` implementation is
  not part of the sources at hand, only its tests) are modelled from the
  spec, as marked in the respective doc comments.
* `ToolContext` / `CustomToolContext` (`src/agents/tool_context.py`) are
  embedded with explicit `Option` arguments standing for omitted dataclass
  fields, whose `default_factory` raises `ValueError`.
-/

/-- Token usage counters (`agents.usage.Usage`; only the counters that
`get_response_obj` reads are kept). -/
structure Usage where
  input_tokens : Nat
  output_tokens : Nat
  total_tokens : Nat
deriving DecidableEq, Repr

/-- The `Usage()` default constructed in `get_response` — all counters zero. -/
def Usage.empty : Usage := ⟨0, 0, 0⟩

/-- One summary segment of a reasoning item
(`openai.types.responses.response_reasoning_item.Summary`). -/
structure Summary where
  text : String
  summary_type : String
deriving DecidableEq, Repr

/-- An output item of a turn (`TResponseOutputItem`), restricted to the
variants the sources construct: assistant messages, function tool calls
(which double as handoff calls) and reasoning items. -/
inductive OutputItem where
  | message (id : String) (text : String)
  | function_tool_call (id : String) (call_id : String) (name : String) (arguments : String)
  | reasoning (id : String) (summary : List Summary)
deriving DecidableEq, Repr

/-- The `Response` object built by `get_response_obj` in `tests/fake_model.py`
(the constant fields `created_at`, `object`, … are omitted; `model` is kept to
show the response payload is shared verbatim by the turn-level events). -/
structure ResponseObj where
  id : String
  model : String
  output : List OutputItem
  usage : Usage
deriving DecidableEq, Repr

/-- Embeds `get_response_obj(output, response_id, usage)` from `tests/fake_model.py`. -/
def get_response_obj (output : List OutputItem) (response_id : Option String)
    (usage : Option Usage) : ResponseObj :=
  { id := response_id.getD "123"
    model := "test_model"
    output := output
    usage :=
      { input_tokens := (usage.map Usage.input_tokens).getD 0
        output_tokens := (usage.map Usage.output_tokens).getD 0
        total_tokens := (usage.map Usage.total_tokens).getD 0 } }

/-- A provider-shaped raw event (`TResponseStreamEvent`), one constructor per
event class yielded by `FakeModel.stream_response`. Every event carries its
`sequence_number`. -/
inductive RawEvent where
  | response_created (response : ResponseObj) (sequence_number : Nat)
  | response_in_progress (response : ResponseObj) (sequence_number : Nat)
  | output_item_added (item : OutputItem) (output_index : Nat) (sequence_number : Nat)
  | reasoning_summary_part_added (item_id : String) (output_index : Nat)
      (summary_index : Nat) (part_text : String) (part_type : String) (sequence_number : Nat)
  | reasoning_summary_text_delta (item_id : String) (output_index : Nat)
      (summary_index : Nat) (delta : String) (obfuscation : String) (sequence_number : Nat)
  | reasoning_summary_text_done (item_id : String) (output_index : Nat)
      (summary_index : Nat) (text : String) (sequence_number : Nat)
  | reasoning_summary_part_done (item_id : String) (output_index : Nat)
      (summary_index : Nat) (part_text : String) (part_type : String) (sequence_number : Nat)
  | output_item_done (item : OutputItem) (output_index : Nat) (sequence_number : Nat)
  | response_completed (response : ResponseObj) (sequence_number : Nat)
deriving DecidableEq, Repr

/-- The `sequence_number` field of a raw event. -/
def RawEvent.seq : RawEvent → Nat
  | .response_created _ n => n
  | .response_in_progress _ n => n
  | .output_item_added _ _ n => n
  | .reasoning_summary_part_added _ _ _ _ _ n => n
  | .reasoning_summary_text_delta _ _ _ _ _ n => n
  | .reasoning_summary_text_done _ _ _ _ n => n
  | .reasoning_summary_part_done _ _ _ _ _ n => n
  | .output_item_done _ _ n => n
  | .response_completed _ n => n

/-- The per-segment events of a reasoning item's summary list, as yielded by
the `for summary_index, summary in enumerate(output_item.summary)` loop of
`FakeModel.stream_response`: part added, text delta, text done, part done —
each consuming one sequence number. -/
def summaryEvents (item_id : String) (output_index : Nat) :
    List Summary → Nat → Nat → List RawEvent
  | [], _, _ => []
  | s :: rest, summary_index, seq =>
    .reasoning_summary_part_added item_id output_index summary_index s.text s.summary_type seq ::
    .reasoning_summary_text_delta item_id output_index summary_index s.text "fake_obfuscation" (seq + 1) ::
    .reasoning_summary_text_done item_id output_index summary_index s.text (seq + 2) ::
    .reasoning_summary_part_done item_id output_index summary_index s.text s.summary_type (seq + 3) ::
    summaryEvents item_id output_index rest (summary_index + 1) (seq + 4)

/-- The sub-events emitted between an item's `added` and `done` events:
non-empty only for reasoning items (`isinstance(output_item, ResponseReasoningItem)`
in the source; iterating an empty summary list yields nothing, matching the
`if output_item.summary` guard). -/
def itemSubEvents (item : OutputItem) (output_index : Nat) (seq : Nat) : List RawEvent :=
  match item with
  | .reasoning item_id summary => summaryEvents item_id output_index summary 0 seq
  | _ => []

/-- All events of one output item: `response.output_item.added`, the
sub-events, then `response.output_item.done`. -/
def itemEvents (item : OutputItem) (output_index : Nat) (seq : Nat) : List RawEvent :=
  let subs := itemSubEvents item output_index (seq + 1)
  .output_item_added item output_index seq ::
    subs ++ [.output_item_done item output_index (seq + 1 + subs.length)]

/-- The events of the `for output_index, output_item in enumerate(output)`
loop of `FakeModel.stream_response`. -/
def itemsEvents : List OutputItem → Nat → Nat → List RawEvent
  | [], _, _ => []
  | item :: rest, output_index, seq =>
    let evs := itemEvents item output_index seq
    evs ++ itemsEvents rest (output_index + 1) (seq + evs.length)

/-- The full raw-event sequence `FakeModel.stream_response` yields for a turn
whose batch output is `output`: `response.created` (seq 0),
`response.in_progress` (seq 1), the per-item events, and a final
`response.completed`. -/
def streamEvents (output : List OutputItem) (usage : Option Usage) : List RawEvent :=
  let response := get_response_obj output none usage
  let body := itemsEvents output 0 2
  .response_created response 0 ::
    .response_in_progress response 1 ::
    body ++ [.response_completed response (2 + body.length)]

/-! ## Sequence-number bookkeeping -/

theorem summaryEvents_length (item_id : String) (oi : Nat) (ss : List Summary)
    (si seq : Nat) : (summaryEvents item_id oi ss si seq).length = 4 * ss.length := by
  induction ss generalizing si seq with
  | nil => rfl
  | cons s rest ih =>
    simp only [summaryEvents, List.length_cons, ih]
    ring

theorem range'_add_four (s n : Nat) :
    List.range' s (n + 4)
      = s :: (s + 1) :: (s + 2) :: (s + 3) :: List.range' (s + 4) n := rfl

theorem range'_cons_concat (s n : Nat) :
    (s :: List.range' (s + 1) n) ++ [s + 1 + n] = List.range' s (n + 2) := by
  rw [List.cons_append, ← List.range'_1_concat]
  rfl

theorem range'_zero_cons (bl : Nat) :
    ((0 : Nat) :: 1 :: List.range' 2 bl) ++ [2 + bl] = List.range' 0 (bl + 3) := by
  rw [List.cons_append, List.cons_append, ← List.range'_1_concat]
  rfl

theorem summaryEvents_seqs (item_id : String) (oi : Nat) (ss : List Summary)
    (si seq : Nat) :
    (summaryEvents item_id oi ss si seq).map RawEvent.seq
      = List.range' seq (4 * ss.length) := by
  induction ss generalizing si seq with
  | nil => rfl
  | cons s rest ih =>
    simp only [summaryEvents, List.map_cons, RawEvent.seq, List.length_cons]
    rw [ih]
    rw [show 4 * (rest.length + 1) = 4 * rest.length + 4 from by ring]
    rw [range'_add_four]

theorem itemEvents_seqs (item : OutputItem) (oi seq : Nat) :
    (itemEvents item oi seq).map RawEvent.seq
      = List.range' seq (itemEvents item oi seq).length := by
  cases item with
  | message id text => rfl
  | function_tool_call id cid name args => rfl
  | reasoning item_id summary =>
    simp only [itemEvents, itemSubEvents, List.map_cons, List.map_append, List.map_nil,
      List.length_cons, List.length_append, List.length_nil, RawEvent.seq,
      summaryEvents_length, summaryEvents_seqs]
    rw [range'_cons_concat]

theorem itemsEvents_seqs (items : List OutputItem) (oi seq : Nat) :
    (itemsEvents items oi seq).map RawEvent.seq
      = List.range' seq (itemsEvents items oi seq).length := by
  induction items generalizing oi seq with
  | nil => rfl
  | cons item rest ih =>
    simp only [itemsEvents, List.map_append, List.length_append]
    rw [itemEvents_seqs, ih, List.range'_append_1]
    congr 1
    omega

theorem streamEvents_seqs (output : List OutputItem) (usage : Option Usage) :
    (streamEvents output usage).map RawEvent.seq
      = List.range (streamEvents output usage).length := by
  unfold streamEvents
  simp only [List.map_cons, List.map_append, List.map_nil,
    List.length_cons, List.length_append, List.length_nil, RawEvent.seq]
  rw [List.range_eq_range', itemsEvents_seqs]
  rw [range'_zero_cons]

/-- Adjacent elements of `range' s n` are strictly increasing. -/
theorem chain_lt_range' (s n : Nat) : List.Chain' (· < ·) (List.range' s n) := by
  induction n generalizing s with
  | zero => exact List.chain'_nil
  | succ m ih =>
    rw [List.range'_succ]
    cases m with
    | zero => simp
    | succ k =>
      rw [List.range'_succ]
      exact List.Chain'.cons (by omega) (List.range'_succ (s + 1) k 1 ▸ ih (s + 1))

/-- C3: For every turn, the sequence numbers carried by the RawEvents emitted
by the batch-to-stream synthesis (`FakeModel.stream_response`) start at 0 and
each subsequent event's number is strictly greater than its predecessor's. -/
theorem rawEvent_seq_strictly_increasing_from_zero
    (output : List OutputItem) (usage : Option Usage) :
    ((streamEvents output usage).map RawEvent.seq).head? = some 0 ∧
      List.Chain' (· < ·) ((streamEvents output usage).map RawEvent.seq) := by
  constructor
  · unfold streamEvents
    rfl
  · rw [streamEvents_seqs, List.range_eq_range']
    exact chain_lt_range' 0 _

/-! ## Event classification helpers -/

/-- Turn-level marker events (`response.created` / `response.in_progress` /
`response.completed`). -/
def RawEvent.isTurnLevel : RawEvent → Bool
  | .response_created _ _ => true
  | .response_in_progress _ _ => true
  | .response_completed _ _ => true
  | _ => false

def isCreatedEvent : RawEvent → Bool
  | .response_created _ _ => true
  | _ => false

def isInProgressEvent : RawEvent → Bool
  | .response_in_progress _ _ => true
  | _ => false

def isCompletedEvent : RawEvent → Bool
  | .response_completed _ _ => true
  | _ => false

/-- Projects an `output_item.added` event to `(true, item)` and an
`output_item.done` event to `(false, item)`; every other event projects
to `none`. -/
def addedDoneProj : RawEvent → Option (Bool × OutputItem)
  | .output_item_added item _ _ => some (true, item)
  | .output_item_done item _ _ => some (false, item)
  | _ => none

/-- The `output_index` an event is attributed to (`none` for the turn-level
markers). -/
def RawEvent.outputIndex? : RawEvent → Option Nat
  | .output_item_added _ oi _ => some oi
  | .output_item_done _ oi _ => some oi
  | .reasoning_summary_part_added _ oi _ _ _ _ => some oi
  | .reasoning_summary_text_delta _ oi _ _ _ _ => some oi
  | .reasoning_summary_text_done _ oi _ _ _ => some oi
  | .reasoning_summary_part_done _ oi _ _ _ _ => some oi
  | _ => none

theorem mem_summaryEvents (item_id : String) (oi : Nat) (ss : List Summary)
    (si seq : Nat) :
    ∀ e ∈ summaryEvents item_id oi ss si seq,
      e.isTurnLevel = false ∧ addedDoneProj e = none ∧ e.outputIndex? = some oi := by
  induction ss generalizing si seq with
  | nil => intro e he; cases he
  | cons s rest ih =>
    intro e he
    simp only [summaryEvents, List.mem_cons] at he
    rcases he with h | h | h | h | h
    · subst h; exact ⟨rfl, rfl, rfl⟩
    · subst h; exact ⟨rfl, rfl, rfl⟩
    · subst h; exact ⟨rfl, rfl, rfl⟩
    · subst h; exact ⟨rfl, rfl, rfl⟩
    · exact ih _ _ e h

theorem mem_itemEvents (item : OutputItem) (oi seq : Nat) :
    ∀ e ∈ itemEvents item oi seq, e.isTurnLevel = false ∧ e.outputIndex? = some oi := by
  intro e he
  simp only [itemEvents, List.mem_append, List.mem_cons] at he
  rcases he with (h | h) | (h | h)
  · subst h; exact ⟨rfl, rfl⟩
  · cases item with
    | reasoning item_id summary =>
      have := mem_summaryEvents item_id oi summary 0 (seq + 1) e h
      exact ⟨this.1, this.2.2⟩
    | message id text => cases h
    | function_tool_call id cid name args => cases h
  · subst h; exact ⟨rfl, rfl⟩
  · cases h

theorem mem_itemsEvents (items : List OutputItem) (oi seq : Nat) :
    ∀ e ∈ itemsEvents items oi seq,
      ∃ j, e.outputIndex? = some j ∧ oi ≤ j ∧ j < oi + items.length := by
  induction items generalizing oi seq with
  | nil => intro e he; cases he
  | cons item rest ih =>
    intro e he
    simp only [itemsEvents, List.mem_append] at he
    rcases he with h | h
    · exact ⟨oi, (mem_itemEvents item oi seq e h).2, Nat.le_refl oi, by
        simp [List.length_cons]⟩
    · obtain ⟨j, hj, h1, h2⟩ := ih (oi + 1) _ e h
      exact ⟨j, hj, by omega, by simp only [List.length_cons]; omega⟩

theorem mem_itemsEvents_not_turnLevel (items : List OutputItem) (oi seq : Nat) :
    ∀ e ∈ itemsEvents items oi seq, e.isTurnLevel = false := by
  intro e he
  obtain ⟨j, hj, _, _⟩ := mem_itemsEvents items oi seq e he
  cases e <;> simp_all [RawEvent.outputIndex?, RawEvent.isTurnLevel]

theorem summaryEvents_filterMap_addedDone (item_id : String) (oi : Nat)
    (ss : List Summary) (si seq : Nat) :
    (summaryEvents item_id oi ss si seq).filterMap addedDoneProj = [] := by
  rw [List.filterMap_eq_nil_iff]
  intro e he
  exact (mem_summaryEvents item_id oi ss si seq e he).2.1

theorem itemEvents_filterMap_addedDone (item : OutputItem) (oi seq : Nat) :
    (itemEvents item oi seq).filterMap addedDoneProj = [(true, item), (false, item)] := by
  simp only [itemEvents, List.filterMap_append, List.filterMap_cons]
  cases item with
  | reasoning item_id summary =>
    simp [itemSubEvents, addedDoneProj, summaryEvents_filterMap_addedDone]
  | message id text => rfl
  | function_tool_call id cid name args => rfl

theorem itemsEvents_filterMap_addedDone (items : List OutputItem) (oi seq : Nat) :
    (itemsEvents items oi seq).filterMap addedDoneProj
      = items.flatMap (fun item => [(true, item), (false, item)]) := by
  induction items generalizing oi seq with
  | nil => rfl
  | cons item rest ih =>
    simp only [itemsEvents, List.filterMap_append, List.flatMap_cons,
      itemEvents_filterMap_addedDone, ih]

theorem itemsEvents_countP_turnLevel_zero (items : List OutputItem) (oi seq : Nat)
    (p : RawEvent → Bool) (hp : ∀ e, p e = true → e.isTurnLevel = true) :
    (itemsEvents items oi seq).countP p = 0 := by
  rw [List.countP_eq_zero]
  intro e he hpe
  have h1 := mem_itemsEvents_not_turnLevel items oi seq e he
  rw [hp e hpe] at h1
  cases h1

/-- C4: for every batch list of output items, the synthesized RawEvent
sequence is deterministic and canonically ordered: the two turn-level
markers (`response.created` with sequence number 0 and
`response.in_progress` with sequence number 1) come first and appear only
there; projecting the stream to its `added`/`done` events yields, for each
output item in list order, exactly one `added` followed by exactly one
`done` for that item; and the sequence ends with exactly one turn-level
`response.completed` event. -/
theorem batch_synthesis_canonical_order (output : List OutputItem) (usage : Option Usage) :
    (streamEvents output usage).take 2
        = [.response_created (get_response_obj output none usage) 0,
           .response_in_progress (get_response_obj output none usage) 1] ∧
    (streamEvents output usage).countP isCreatedEvent = 1 ∧
    (streamEvents output usage).countP isInProgressEvent = 1 ∧
    (streamEvents output usage).filterMap addedDoneProj
        = output.flatMap (fun item => [(true, item), (false, item)]) ∧
    (streamEvents output usage).countP isCompletedEvent = 1 ∧
    ∃ n, (streamEvents output usage).getLast?
        = some (.response_completed (get_response_obj output none usage) n) := by
  refine ⟨rfl, ?_, ?_, ?_, ?_, ?_⟩
  · unfold streamEvents
    simp only [List.countP_append, List.countP_cons, List.cons_append, List.nil_append]
    rw [itemsEvents_countP_turnLevel_zero _ _ _ isCreatedEvent
      (by intro e; cases e <;> simp [isCreatedEvent, RawEvent.isTurnLevel])]
    rfl
  · unfold streamEvents
    simp only [List.countP_append, List.countP_cons, List.cons_append, List.nil_append]
    rw [itemsEvents_countP_turnLevel_zero _ _ _ isInProgressEvent
      (by intro e; cases e <;> simp [isInProgressEvent, RawEvent.isTurnLevel])]
    rfl
  · simp [streamEvents, addedDoneProj, itemsEvents_filterMap_addedDone]
  · unfold streamEvents
    simp only [List.countP_append, List.countP_cons, List.cons_append, List.nil_append]
    rw [itemsEvents_countP_turnLevel_zero _ _ _ isCompletedEvent
      (by intro e; cases e <;> simp [isCompletedEvent, RawEvent.isTurnLevel])]
    rfl
  · exact ⟨2 + (itemsEvents output 0 2).length, List.getLast?_concat _⟩

/-! ## Locating one item's events inside the turn -/

theorem itemsEvents_decomp (items : List OutputItem) (oi seq i : Nat)
    (h : i < items.length) :
    ∃ a c s, itemsEvents items oi seq
        = a ++ itemEvents (items.get ⟨i, h⟩) (oi + i) s ++ c ∧
      (∀ e ∈ a, ∃ j, e.outputIndex? = some j ∧ j < oi + i) ∧
      (∀ e ∈ c, ∃ j, e.outputIndex? = some j ∧ oi + i < j) := by
  induction items generalizing oi seq i with
  | nil => cases h
  | cons item rest ih =>
    cases i with
    | zero =>
      refine ⟨[], itemsEvents rest (oi + 1) (seq + (itemEvents item oi seq).length),
        seq, ?_, ?_, ?_⟩
      · simp only [itemsEvents, List.nil_append, Nat.add_zero, List.get]
      · intro e he; cases he
      · intro e he
        obtain ⟨j, hj, h1, _⟩ := mem_itemsEvents rest (oi + 1) _ e he
        exact ⟨j, hj, by omega⟩
    | succ k =>
      have hk : k < rest.length := by
        simp only [List.length_cons] at h; omega
      obtain ⟨a', c', s', heq, ha', hc'⟩ :=
        ih (oi + 1) (seq + (itemEvents item oi seq).length) k hk
      refine ⟨itemEvents item oi seq ++ a', c', s', ?_, ?_, ?_⟩
      · simp only [itemsEvents, heq, List.append_assoc, List.get]
        have : oi + 1 + k = oi + (k + 1) := by omega
        rw [this]
      · intro e he
        rcases List.mem_append.mp he with h1 | h1
        · exact ⟨oi, (mem_itemEvents item oi seq e h1).2, by omega⟩
        · obtain ⟨j, hj, hlt⟩ := ha' e h1
          exact ⟨j, hj, by omega⟩
      · intro e he
        obtain ⟨j, hj, hlt⟩ := hc' e he
        exact ⟨j, hj, by omega⟩

/-! ## C5: reasoning summary sub-events -/

/-- The four kinds of per-segment sub-events a reasoning summary segment
produces. -/
inductive SubKind where
  | part_added
  | text_delta
  | text_done
  | part_done
deriving DecidableEq, Repr

/-- Projects a reasoning-summary sub-event attributed to output index `i` to
`(item_id, kind, summary_index, text)`; anything else projects to `none`. -/
def summaryProjAt (i : Nat) : RawEvent → Option (String × SubKind × Nat × String)
  | .reasoning_summary_part_added iid oi si text _ _ =>
    if oi = i then some (iid, .part_added, si, text) else none
  | .reasoning_summary_text_delta iid oi si d _ _ =>
    if oi = i then some (iid, .text_delta, si, d) else none
  | .reasoning_summary_text_done iid oi si t _ =>
    if oi = i then some (iid, .text_done, si, t) else none
  | .reasoning_summary_part_done iid oi si text _ _ =>
    if oi = i then some (iid, .part_done, si, text) else none
  | _ => none

/-- Holds when `e` is a reasoning-summary sub-event attributed to output index `i`. -/
def isSummaryAt (i : Nat) (e : RawEvent) : Bool :=
  (summaryProjAt i e).isSome

/-- The expected projection of the sub-events of a summary list, one
`part_added`/`text_delta`/`text_done`/`part_done` block per segment, in
segment order. -/
def segTuples (item_id : String) : List Summary → Nat → List (String × SubKind × Nat × String)
  | [], _ => []
  | s :: rest, si =>
    (item_id, .part_added, si, s.text) :: (item_id, .text_delta, si, s.text) ::
    (item_id, .text_done, si, s.text) :: (item_id, .part_done, si, s.text) ::
    segTuples item_id rest (si + 1)

theorem isSummaryAt_outputIndex (i : Nat) (e : RawEvent)
    (h : isSummaryAt i e = true) : e.outputIndex? = some i := by
  cases e <;> simp only [isSummaryAt, summaryProjAt, RawEvent.outputIndex?] at h ⊢ <;>
    first
      | cases h
      | (split at h
         · next hcond => rw [hcond]
         · next => simp at h)

theorem summaryEvents_filterMap_proj (item_id : String) (oi : Nat)
    (ss : List Summary) (si seq : Nat) :
    (summaryEvents item_id oi ss si seq).filterMap (summaryProjAt oi)
      = segTuples item_id ss si := by
  induction ss generalizing si seq with
  | nil => rfl
  | cons s rest ih =>
    simp [summaryEvents, List.filterMap_cons, summaryProjAt, segTuples, ih]

theorem mem_summaryEvents_isSummaryAt (item_id : String) (oi : Nat)
    (ss : List Summary) (si seq : Nat) :
    ∀ e ∈ summaryEvents item_id oi ss si seq, isSummaryAt oi e = true := by
  induction ss generalizing si seq with
  | nil => intro e he; cases he
  | cons s rest ih =>
    intro e he
    simp only [summaryEvents, List.mem_cons] at he
    rcases he with h | h | h | h | h
    · subst h; simp [isSummaryAt, summaryProjAt]
    · subst h; simp [isSummaryAt, summaryProjAt]
    · subst h; simp [isSummaryAt, summaryProjAt]
    · subst h; simp [isSummaryAt, summaryProjAt]
    · exact ih _ _ e h

/-- C5: for every reasoning item (at output index `i`, with summary segment
list `summary`), the synthesized stream decomposes around that item's
`added` and `done` events, and everything strictly between them is exactly
the per-segment sub-event run: one `part_added`/`text_delta`/`text_done`/
`part_done` block per segment, in segment order.  No sub-event attributed to
this item occurs outside that window. -/
theorem reasoning_subevents_between_added_and_done
    (output : List OutputItem) (usage : Option Usage) (i : Nat)
    (h : i < output.length) (item_id : String) (summary : List Summary)
    (hitem : output.get ⟨i, h⟩ = .reasoning item_id summary) :
    ∃ a b c s₁ s₂,
      streamEvents output usage
          = a ++ RawEvent.output_item_added (.reasoning item_id summary) i s₁ ::
              (b ++ RawEvent.output_item_done (.reasoning item_id summary) i s₂ :: c) ∧
        b.filterMap (summaryProjAt i) = segTuples item_id summary 0 ∧
        (∀ e ∈ b, isSummaryAt i e = true) ∧
        a.countP (isSummaryAt i) = 0 ∧
        c.countP (isSummaryAt i) = 0 := by
  obtain ⟨A, C, s, heq, hA, hC⟩ := itemsEvents_decomp output 0 2 i h
  rw [hitem] at heq
  rw [Nat.zero_add] at heq hA hC
  refine ⟨RawEvent.response_created (get_response_obj output none usage) 0 ::
      RawEvent.response_in_progress (get_response_obj output none usage) 1 :: A,
    summaryEvents item_id i summary 0 (s + 1),
    C ++ [RawEvent.response_completed (get_response_obj output none usage)
      (2 + (itemsEvents output 0 2).length)],
    s, s + 1 + (summaryEvents item_id i summary 0 (s + 1)).length, ?_, ?_, ?_, ?_, ?_⟩
  · unfold streamEvents
    rw [heq]
    simp [itemEvents, itemSubEvents, List.append_assoc, List.cons_append]
  · exact summaryEvents_filterMap_proj item_id i summary 0 (s + 1)
  · exact mem_summaryEvents_isSummaryAt item_id i summary 0 (s + 1)
  · rw [List.countP_cons, List.countP_cons]
    have h0 : isSummaryAt i (RawEvent.response_created (get_response_obj output none usage) 0)
        = false := rfl
    have h1 : isSummaryAt i (RawEvent.response_in_progress (get_response_obj output none usage) 1)
        = false := rfl
    rw [List.countP_eq_zero.mpr, h0, h1]
    · rfl
    · intro e he hse
      obtain ⟨j, hj, hlt⟩ := hA e he
      rw [isSummaryAt_outputIndex i e hse] at hj
      cases hj
      omega
  · rw [List.countP_append, List.countP_eq_zero.mpr, List.countP_eq_zero.mpr]
    · intro e he hse
      rcases List.mem_singleton.mp he with h'
      subst h'
      cases hse
    · intro e he hse
      obtain ⟨j, hj, hlt⟩ := hC e he
      rw [isSummaryAt_outputIndex i e hse] at hj
      cases hj
      omega

/-! ## The Run-Item Synthesizer (modelled from the spec) -/

/-- Modelled from the spec: the RunItemEvent kinds of §3 (the `Runner`
implementation is not among the sources; only its tests are). -/
inductive RunItemKind where
  | message_output_created
  | tool_called
  | reasoning_item_created
  | handoff_requested
deriving DecidableEq, Repr

/-- Modelled from the spec (§4.2): classification of a completed item by its
variant — function/custom tool call → `tool_called`, reasoning →
`reasoning_item_created`, assistant message → `message_output_created`,
handoff-type tool call (name in the active agent's declared handoff tool
names) → `handoff_requested`. -/
def classifyItem (handoff_names : List String) : OutputItem → RunItemKind
  | .message _ _ => .message_output_created
  | .reasoning _ _ => .reasoning_item_created
  | .function_tool_call _ _ name _ =>
    if name ∈ handoff_names then .handoff_requested else .tool_called

/-- An event of the externally consumed merged stream (§6): a raw passthrough
event, a semantic run-item event, or an agent-switch event. -/
inductive StreamEvent where
  | raw (event : RawEvent)
  | run_item (kind : RunItemKind) (item : OutputItem) (output_index : Nat)
  | agent_updated (new_agent : String)
deriving DecidableEq, Repr

/-- Modelled from the spec (§4.2): the Run-Item Synthesizer is an incremental
single-pass consumer of the RawEvent sequence; whenever a RawEvent signals
that an item reached its terminal `done` state it emits exactly one
RunItemEvent right after it, and every raw event is passed through. -/
def expandEvent (handoff_names : List String) (e : RawEvent) : List StreamEvent :=
  match e with
  | .output_item_done item oi _ =>
    [.raw e, .run_item (classifyItem handoff_names item) item oi]
  | _ => [.raw e]

/-- Modelled from the spec (§4.2, §4.3): the merged raw + run-item stream of
one turn, obtained by the single-pass scan `expandEvent` over the raw
events. -/
def synthesize (handoff_names : List String) (events : List RawEvent) : List StreamEvent :=
  events.flatMap (expandEvent handoff_names)

def isDoneAt (i : Nat) : RawEvent → Bool
  | .output_item_done _ oi _ => oi == i
  | _ => false

/-- Lifts a raw-event predicate to the merged stream (false on synthesized
events). -/
def liftRaw (q : RawEvent → Bool) : StreamEvent → Bool
  | .raw e => q e
  | _ => false

def isRawDoneAt (i : Nat) : StreamEvent → Bool := liftRaw (isDoneAt i)

def isRawCompleted : StreamEvent → Bool := liftRaw isCompletedEvent

def isRunItemAt (i : Nat) : StreamEvent → Bool
  | .run_item _ _ oi => oi == i
  | _ => false

theorem synthesize_countP_liftRaw (hn : List String) (q : RawEvent → Bool)
    (evs : List RawEvent) :
    (synthesize hn evs).countP (liftRaw q) = evs.countP q := by
  induction evs with
  | nil => rfl
  | cons e rest ih =>
    simp only [synthesize, List.flatMap_cons, List.countP_append, List.countP_cons] at *
    rw [ih]
    cases e <;> simp [expandEvent, liftRaw, List.countP_cons] <;> omega

theorem synthesize_countP_runItemAt (hn : List String) (i : Nat)
    (evs : List RawEvent) :
    (synthesize hn evs).countP (isRunItemAt i) = evs.countP (isDoneAt i) := by
  induction evs with
  | nil => rfl
  | cons e rest ih =>
    simp only [synthesize, List.flatMap_cons, List.countP_append, List.countP_cons] at *
    rw [ih]
    cases e <;> simp [expandEvent, isRunItemAt, isDoneAt, List.countP_cons] <;> omega

theorem raw_mem_synthesize (hn : List String) (e : RawEvent) (evs : List RawEvent)
    (he : e ∈ evs) : StreamEvent.raw e ∈ synthesize hn evs := by
  apply List.mem_flatMap.mpr
  exact ⟨e, he, by cases e <;> simp [expandEvent]⟩

theorem isDoneAt_outputIndex (i : Nat) (e : RawEvent) (h : isDoneAt i e = true) :
    e.outputIndex? = some i := by
  cases e <;> simp_all [isDoneAt, RawEvent.outputIndex?]

theorem isDoneAt_false_of_proj_none (i : Nat) (e : RawEvent)
    (h : addedDoneProj e = none) : isDoneAt i e = false := by
  cases e <;> simp_all [addedDoneProj, isDoneAt]

theorem itemEvents_countP_doneAt (item : OutputItem) (i s : Nat) :
    (itemEvents item i s).countP (isDoneAt i) = 1 := by
  have hsubs : (itemSubEvents item i (s + 1)).countP (isDoneAt i) = 0 := by
    rw [List.countP_eq_zero]
    intro e he hde
    cases item with
    | reasoning item_id summary =>
      have := (mem_summaryEvents item_id i summary 0 (s + 1) e he).2.1
      rw [isDoneAt_false_of_proj_none i e this] at hde
      cases hde
    | message id text => cases he
    | function_tool_call id cid name args => cases he
  simp [itemEvents, List.countP_append, List.countP_cons, isDoneAt, hsubs]

theorem streamEvents_countP_doneAt (output : List OutputItem) (usage : Option Usage)
    (i : Nat) (h : i < output.length) :
    (streamEvents output usage).countP (isDoneAt i) = 1 := by
  obtain ⟨A, C, s, heq, hA, hC⟩ := itemsEvents_decomp output 0 2 i h
  rw [Nat.zero_add] at heq hA hC
  have hA0 : A.countP (isDoneAt i) = 0 := by
    rw [List.countP_eq_zero]
    intro e he hde
    obtain ⟨j, hj, hlt⟩ := hA e he
    rw [isDoneAt_outputIndex i e hde] at hj
    cases hj
    omega
  have hC0 : C.countP (isDoneAt i) = 0 := by
    rw [List.countP_eq_zero]
    intro e he hde
    obtain ⟨j, hj, hlt⟩ := hC e he
    rw [isDoneAt_outputIndex i e hde] at hj
    cases hj
    omega
  simp [streamEvents, heq, List.countP_append, List.countP_cons, isDoneAt,
    itemEvents_countP_doneAt, hA0, hC0]

theorem streamEvents_countP_completed (output : List OutputItem) (usage : Option Usage) :
    (streamEvents output usage).countP isCompletedEvent = 1 := by
  simp only [streamEvents, List.cons_append, List.nil_append, List.countP_append,
    List.countP_cons]
  rw [itemsEvents_countP_turnLevel_zero _ _ _ isCompletedEvent
    (by intro e; cases e <;> simp [isCompletedEvent, RawEvent.isTurnLevel])]
  rfl

/-- The merged stream of a turn, around the `done` event of item `i`: the
synthesizer emits the run-item event for `i` directly after that raw `done`
event, and the turn's raw `response.completed` event comes later. -/
theorem synthesize_decomp (hn : List String) (output : List OutputItem)
    (usage : Option Usage) (i : Nat) (h : i < output.length)
    (item : OutputItem) (hitem : output.get ⟨i, h⟩ = item) :
    ∃ a c s,
      synthesize hn (streamEvents output usage)
          = a ++ StreamEvent.raw (RawEvent.output_item_done item i s) ::
              StreamEvent.run_item (classifyItem hn item) item i :: c ∧
        ∃ n, StreamEvent.raw
              (RawEvent.response_completed (get_response_obj output none usage) n) ∈ c := by
  obtain ⟨A, C, s, heq, hA, hC⟩ := itemsEvents_decomp output 0 2 i h
  rw [Nat.zero_add, hitem] at heq
  have hdoneev : itemEvents item i s
      = (RawEvent.output_item_added item i s :: itemSubEvents item i (s + 1))
        ++ [RawEvent.output_item_done item i (s + 1 + (itemSubEvents item i (s + 1)).length)] := rfl
  have hraw : streamEvents output usage
      = (RawEvent.response_created (get_response_obj output none usage) 0 ::
          RawEvent.response_in_progress (get_response_obj output none usage) 1 ::
          (A ++ (RawEvent.output_item_added item i s :: itemSubEvents item i (s + 1))))
        ++ RawEvent.output_item_done item i (s + 1 + (itemSubEvents item i (s + 1)).length) ::
          (C ++ [RawEvent.response_completed (get_response_obj output none usage)
            (2 + (itemsEvents output 0 2).length)]) := by
    conv_lhs => rw [streamEvents]
    rw [heq, hdoneev]
    simp [List.append_assoc, List.cons_append]
  refine ⟨synthesize hn (RawEvent.response_created (get_response_obj output none usage) 0 ::
      RawEvent.response_in_progress (get_response_obj output none usage) 1 ::
      (A ++ (RawEvent.output_item_added item i s :: itemSubEvents item i (s + 1)))),
    synthesize hn (C ++ [RawEvent.response_completed (get_response_obj output none usage)
      (2 + (itemsEvents output 0 2).length)]),
    s + 1 + (itemSubEvents item i (s + 1)).length, ?_, ?_⟩
  · rw [hraw]
    simp only [synthesize, List.flatMap_append, List.flatMap_cons]
    rw [show expandEvent hn (RawEvent.output_item_done item i
        (s + 1 + (itemSubEvents item i (s + 1)).length))
      = [StreamEvent.raw (RawEvent.output_item_done item i
            (s + 1 + (itemSubEvents item i (s + 1)).length)),
         StreamEvent.run_item (classifyItem hn item) item i] from rfl]
    simp [List.append_assoc]
  · refine ⟨2 + (itemsEvents output 0 2).length, ?_⟩
    apply raw_mem_synthesize
    simp

/-- C1: for every turn and every item completed during it (the item at
output index `i`), the merged raw/run-item stream of the turn contains
exactly one run-item event for that item, exactly one raw `done` event for
it, exactly one raw `response.completed` event, and the run-item event sits
strictly after that `done` event and strictly before the `completed`
event. -/
theorem run_item_once_strictly_between_done_and_completed
    (handoff_names : List String) (output : List OutputItem) (usage : Option Usage)
    (i : Nat) (h : i < output.length)
    (item : OutputItem) (hitem : output.get ⟨i, h⟩ = item) :
    ((synthesize handoff_names (streamEvents output usage)).countP (isRunItemAt i) = 1) ∧
    ((synthesize handoff_names (streamEvents output usage)).countP (isRawDoneAt i) = 1) ∧
    ((synthesize handoff_names (streamEvents output usage)).countP isRawCompleted = 1) ∧
    ∃ a b c k s,
      synthesize handoff_names (streamEvents output usage)
          = a ++ StreamEvent.raw (RawEvent.output_item_done item i s) ::
              (b ++ StreamEvent.run_item k item i :: c) ∧
        ∃ n, StreamEvent.raw
              (RawEvent.response_completed (get_response_obj output none usage) n) ∈ c := by
  refine ⟨?_, ?_, ?_, ?_⟩
  · rw [synthesize_countP_runItemAt]
    exact streamEvents_countP_doneAt output usage i h
  · rw [isRawDoneAt, synthesize_countP_liftRaw]
    exact streamEvents_countP_doneAt output usage i h
  · rw [isRawCompleted, synthesize_countP_liftRaw]
    exact streamEvents_countP_completed output usage
  · obtain ⟨a, c, s, heq, n, hn'⟩ := synthesize_decomp handoff_names output usage i h item hitem
    exact ⟨a, [], c, classifyItem handoff_names item, s, by simpa using heq, n, hn'⟩

/-- C2: the run-item event for a completed item is emitted immediately
adjacent to that item's raw `done` event — the unique run-item event for
output index `i` is the direct successor of the unique raw `done` event for
`i` (a gap of 1 position, well within the 3 allowed by the tests) — and it
occurs strictly before the turn's raw `response.completed` event, i.e. it is
never buffered and flushed only at end-of-turn. -/
theorem run_item_adjacent_to_done_event
    (handoff_names : List String) (output : List OutputItem) (usage : Option Usage)
    (i : Nat) (h : i < output.length)
    (item : OutputItem) (hitem : output.get ⟨i, h⟩ = item) :
    ((synthesize handoff_names (streamEvents output usage)).countP (isRunItemAt i) = 1) ∧
    ((synthesize handoff_names (streamEvents output usage)).countP (isRawDoneAt i) = 1) ∧
    ∃ a c k s,
      synthesize handoff_names (streamEvents output usage)
          = a ++ StreamEvent.raw (RawEvent.output_item_done item i s) ::
              StreamEvent.run_item k item i :: c ∧
        ∃ n, StreamEvent.raw
              (RawEvent.response_completed (get_response_obj output none usage) n) ∈ c := by
  refine ⟨?_, ?_, ?_⟩
  · rw [synthesize_countP_runItemAt]
    exact streamEvents_countP_doneAt output usage i h
  · rw [isRawDoneAt, synthesize_countP_liftRaw]
    exact streamEvents_countP_doneAt output usage i h
  · obtain ⟨a, c, s, heq, n, hn'⟩ := synthesize_decomp handoff_names output usage i h item hitem
    exact ⟨a, c, classifyItem handoff_names item, s, heq, n, hn'⟩

/-- Witness for C1 at a concrete turn: a reasoning item followed by a
function tool call (the scenario of `test_run_item_stream_event_order`). -/
theorem run_item_once_strictly_between_witness :
    ((synthesize [] (streamEvents [OutputItem.reasoning "rid" [⟨"thinking", "summary_text"⟩],
          OutputItem.function_tool_call "fid" "cid" "foo" ""] none)).countP (isRunItemAt 0) = 1) ∧
    ((synthesize [] (streamEvents [OutputItem.reasoning "rid" [⟨"thinking", "summary_text"⟩],
          OutputItem.function_tool_call "fid" "cid" "foo" ""] none)).countP (isRawDoneAt 0) = 1) ∧
    ((synthesize [] (streamEvents [OutputItem.reasoning "rid" [⟨"thinking", "summary_text"⟩],
          OutputItem.function_tool_call "fid" "cid" "foo" ""] none)).countP isRawCompleted = 1) ∧
    ∃ a b c k s,
      synthesize [] (streamEvents [OutputItem.reasoning "rid" [⟨"thinking", "summary_text"⟩],
          OutputItem.function_tool_call "fid" "cid" "foo" ""] none)
          = a ++ StreamEvent.raw (RawEvent.output_item_done
                (OutputItem.reasoning "rid" [⟨"thinking", "summary_text"⟩]) 0 s) ::
              (b ++ StreamEvent.run_item k
                (OutputItem.reasoning "rid" [⟨"thinking", "summary_text"⟩]) 0 :: c) ∧
        ∃ n, StreamEvent.raw (RawEvent.response_completed
              (get_response_obj [OutputItem.reasoning "rid" [⟨"thinking", "summary_text"⟩],
                OutputItem.function_tool_call "fid" "cid" "foo" ""] none none) n) ∈ c :=
  run_item_once_strictly_between_done_and_completed []
    [OutputItem.reasoning "rid" [⟨"thinking", "summary_text"⟩],
      OutputItem.function_tool_call "fid" "cid" "foo" ""] none 0 (by decide)
    (OutputItem.reasoning "rid" [⟨"thinking", "summary_text"⟩]) rfl

/-- Witness for C2 at a concrete turn: the tool-call item of the same
scenario, at output index 1. -/
theorem run_item_adjacent_witness :
    ((synthesize [] (streamEvents [OutputItem.reasoning "rid" [⟨"thinking", "summary_text"⟩],
          OutputItem.function_tool_call "fid" "cid" "foo" ""] none)).countP (isRunItemAt 1) = 1) ∧
    ((synthesize [] (streamEvents [OutputItem.reasoning "rid" [⟨"thinking", "summary_text"⟩],
          OutputItem.function_tool_call "fid" "cid" "foo" ""] none)).countP (isRawDoneAt 1) = 1) ∧
    ∃ a c k s,
      synthesize [] (streamEvents [OutputItem.reasoning "rid" [⟨"thinking", "summary_text"⟩],
          OutputItem.function_tool_call "fid" "cid" "foo" ""] none)
          = a ++ StreamEvent.raw (RawEvent.output_item_done
                (OutputItem.function_tool_call "fid" "cid" "foo" "") 1 s) ::
              StreamEvent.run_item k (OutputItem.function_tool_call "fid" "cid" "foo" "") 1 :: c ∧
        ∃ n, StreamEvent.raw (RawEvent.response_completed
              (get_response_obj [OutputItem.reasoning "rid" [⟨"thinking", "summary_text"⟩],
                OutputItem.function_tool_call "fid" "cid" "foo" ""] none none) n) ∈ c :=
  run_item_adjacent_to_done_event []
    [OutputItem.reasoning "rid" [⟨"thinking", "summary_text"⟩],
      OutputItem.function_tool_call "fid" "cid" "foo" ""] none 1 (by decide)
    (OutputItem.function_tool_call "fid" "cid" "foo" "") rfl

/-- Witness for C5 at a concrete turn: a reasoning item with one summary
segment. -/
theorem reasoning_subevents_witness :
    ∃ a b c s₁ s₂,
      streamEvents [OutputItem.reasoning "rid" [⟨"thinking", "summary_text"⟩]] none
          = a ++ RawEvent.output_item_added
              (.reasoning "rid" [⟨"thinking", "summary_text"⟩]) 0 s₁ ::
              (b ++ RawEvent.output_item_done
                (.reasoning "rid" [⟨"thinking", "summary_text"⟩]) 0 s₂ :: c) ∧
        b.filterMap (summaryProjAt 0) = segTuples "rid" [⟨"thinking", "summary_text"⟩] 0 ∧
        (∀ e ∈ b, isSummaryAt 0 e = true) ∧
        a.countP (isSummaryAt 0) = 0 ∧
        c.countP (isSummaryAt 0) = 0 :=
  reasoning_subevents_between_added_and_done
    [OutputItem.reasoning "rid" [⟨"thinking", "summary_text"⟩]] none 0 (by decide)
    "rid" [⟨"thinking", "summary_text"⟩] rfl

/-! ## FakeModel state, exceptions and tracing spans -/

/-- A Python exception as `get_response` / `stream_response` observe it:
its class name (`output.__class__.__name__`) and its message
(`str(output)`). -/
structure ExceptionInfo where
  name : String
  message : String
deriving DecidableEq, Repr

/-- One entry of `FakeModel.turn_outputs`: either a batch list of output
items or an `Exception` instance. -/
inductive TurnOutput where
  | items (output : List OutputItem)
  | exception (e : ExceptionInfo)
deriving DecidableEq, Repr

/-- The `SpanError` recorded by `span.set_error` — constant message
`"Error"` and the `data` dict holding the exception's class name and
message. -/
structure SpanError where
  message : String
  data_name : String
  data_message : String
deriving DecidableEq, Repr

/-- A `generation_span`: whether it was opened disabled and the error
attached to it, if any. -/
structure Span where
  disabled : Bool
  error : Option SpanError
deriving DecidableEq, Repr

/-- The mutable state of a `FakeModel` instance that `get_response` /
`stream_response` read (`last_turn_args` is write-only bookkeeping and is
omitted). -/
structure FakeModel where
  turn_outputs : List TurnOutput
  tracing_enabled : Bool
  hardcoded_usage : Option Usage
deriving DecidableEq, Repr

/-- Embeds `FakeModel.get_next_output`: pop the front of `turn_outputs`, or return
an empty batch when the queue is empty (the queue is left untouched then). -/
def get_next_output (m : FakeModel) : TurnOutput × FakeModel :=
  match m.turn_outputs with
  | [] => (.items [], m)
  | o :: rest => (o, { m with turn_outputs := rest })

/-- Embeds `ModelResponse(output=..., usage=..., response_id=None)`. -/
structure ModelResponse where
  output : List OutputItem
  usage : Usage
  response_id : Option String
deriving DecidableEq, Repr

/-- Result of one `FakeModel.get_response` call: the model state after the
call, the generation span as it was closed, and either the response or the
propagated exception. -/
structure GetResponseResult where
  model : FakeModel
  span : Span
  result : Except ExceptionInfo ModelResponse
deriving Repr

/-- Embeds `FakeModel.get_response`: pops the next scripted output inside a
`generation_span`; if it is an exception, records it on the span and
re-raises it; otherwise returns a `ModelResponse` with the hardcoded usage
(or `Usage()`). -/
def FakeModel.get_response (m : FakeModel) : GetResponseResult :=
  let span : Span := { disabled := !m.tracing_enabled, error := none }
  let (output, m') := get_next_output m
  match output with
  | .exception e =>
    { model := m'
      span := { span with error := some ⟨"Error", e.name, e.message⟩ }
      result := .error e }
  | .items out =>
    { model := m'
      span := span
      result := .ok ⟨out, m.hardcoded_usage.getD Usage.empty, none⟩ }

/-- Result of one `FakeModel.stream_response` call: the model state after
the call, the span, and either the full list of yielded raw events or the
propagated exception (raised before anything is yielded). -/
structure StreamResponseResult where
  model : FakeModel
  span : Span
  result : Except ExceptionInfo (List RawEvent)
deriving Repr

/-- Embeds `FakeModel.stream_response`: pops the next scripted output inside a
`generation_span`; if it is an exception, records it on the span and raises
it before yielding any event; otherwise yields the canonical event sequence
`streamEvents`. -/
def FakeModel.stream_response (m : FakeModel) : StreamResponseResult :=
  let span : Span := { disabled := !m.tracing_enabled, error := none }
  let (output, m') := get_next_output m
  match output with
  | .exception e =>
    { model := m'
      span := { span with error := some ⟨"Error", e.name, e.message⟩ }
      result := .error e }
  | .items out =>
    { model := m'
      span := span
      result := .ok (streamEvents out m.hardcoded_usage) }

/-- C6: whenever the scripted model output for the turn is an exception,
both `get_response` and `stream_response` record the failure on the tracing
span (message `"Error"`, with the exception's class name and message) and
re-raise the very same exception; `stream_response` raises before yielding
anything, so no RawEvents are emitted for that turn. -/
theorem exception_recorded_and_propagated_unchanged
    (m : FakeModel) (e : ExceptionInfo)
    (h : m.turn_outputs.head? = some (.exception e)) :
    (m.get_response).result = .error e ∧
    (m.get_response).span.error = some ⟨"Error", e.name, e.message⟩ ∧
    (m.stream_response).result = .error e ∧
    (m.stream_response).span.error = some ⟨"Error", e.name, e.message⟩ ∧
    ∀ events : List RawEvent, (m.stream_response).result ≠ .ok events := by
  match hm : m.turn_outputs with
  | [] => rw [hm] at h; cases h
  | o :: rest =>
    rw [hm] at h
    simp only [List.head?_cons, Option.some_inj] at h
    subst h
    refine ⟨?_, ?_, ?_, ?_, ?_⟩ <;>
      simp [FakeModel.get_response, FakeModel.stream_response, get_next_output, hm]

/-- Witness for C6: a model scripted to raise `ValueError("boom")`. -/
theorem exception_propagated_witness :
    ((⟨[.exception ⟨"ValueError", "boom"⟩], false, none⟩ : FakeModel).get_response).result
        = .error ⟨"ValueError", "boom"⟩ ∧
    ((⟨[.exception ⟨"ValueError", "boom"⟩], false, none⟩ : FakeModel).get_response).span.error
        = some ⟨"Error", "ValueError", "boom"⟩ ∧
    ((⟨[.exception ⟨"ValueError", "boom"⟩], false, none⟩ : FakeModel).stream_response).result
        = .error ⟨"ValueError", "boom"⟩ ∧
    ((⟨[.exception ⟨"ValueError", "boom"⟩], false, none⟩ : FakeModel).stream_response).span.error
        = some ⟨"Error", "ValueError", "boom"⟩ ∧
    ∀ events : List RawEvent,
      ((⟨[.exception ⟨"ValueError", "boom"⟩], false, none⟩ : FakeModel).stream_response).result
        ≠ .ok events :=
  exception_recorded_and_propagated_unchanged
    ⟨[.exception ⟨"ValueError", "boom"⟩], false, none⟩ ⟨"ValueError", "boom"⟩ rfl

/-- C7: the batch-to-event synthesis is deterministic — two `stream_response`
invocations whose next scripted output is the same fixed list of items and
whose configured usage agrees produce identical RawEvent sequences (same
events, same fields, same order, same sequence numbers), regardless of any
other model state (tracing flag, rest of the scripted queue). -/
theorem stream_response_deterministic
    (m₁ m₂ : FakeModel) (output : List OutputItem)
    (h₁ : m₁.turn_outputs.head? = some (.items output))
    (h₂ : m₂.turn_outputs.head? = some (.items output))
    (husage : m₁.hardcoded_usage = m₂.hardcoded_usage) :
    (m₁.stream_response).result = (m₂.stream_response).result ∧
    (m₁.stream_response).result = .ok (streamEvents output m₁.hardcoded_usage) := by
  match hm₁ : m₁.turn_outputs, hm₂ : m₂.turn_outputs with
  | [], _ => rw [hm₁] at h₁; cases h₁
  | _ :: _, [] => rw [hm₂] at h₂; cases h₂
  | o₁ :: r₁, o₂ :: r₂ =>
    rw [hm₁] at h₁
    rw [hm₂] at h₂
    simp only [List.head?_cons, Option.some_inj] at h₁ h₂
    subst h₁
    subst h₂
    constructor <;>
      simp [FakeModel.stream_response, get_next_output, hm₁, hm₂, husage]

/-- Witness for C7: two models scripted with the same single-message batch
but different tracing flags and different queue tails. -/
theorem stream_response_deterministic_witness :
    ((⟨[.items [OutputItem.message "m1" "hi"]], false, none⟩ : FakeModel).stream_response).result
        = ((⟨[.items [OutputItem.message "m1" "hi"], .exception ⟨"E", "x"⟩], true, none⟩ :
            FakeModel).stream_response).result ∧
    ((⟨[.items [OutputItem.message "m1" "hi"]], false, none⟩ : FakeModel).stream_response).result
        = .ok (streamEvents [OutputItem.message "m1" "hi"]
            (⟨[.items [OutputItem.message "m1" "hi"]], false, none⟩ : FakeModel).hardcoded_usage) :=
  stream_response_deterministic
    ⟨[.items [OutputItem.message "m1" "hi"]], false, none⟩
    ⟨[.items [OutputItem.message "m1" "hi"], .exception ⟨"E", "x"⟩], true, none⟩
    [OutputItem.message "m1" "hi"] rfl rfl rfl

/-! ## Tool-call contexts (`src/agents/tool_context.py`) -/

/-- Modelled from the spec: `RunContextWrapper` (`agents/run_context.py` is
not among the sources at hand). It wraps the user-supplied context object
and the run's usage counters (§1 mentions passthrough of usage counters);
both are init fields of the dataclass. -/
structure RunContextWrapper (α : Type) where
  context : α
  usage : Usage
deriving DecidableEq, Repr

/-- Embeds `ToolContextBase`: a `RunContextWrapper` plus the tool name and tool
call id. -/
structure ToolContextBase (α : Type) extends RunContextWrapper α where
  tool_name : String
  tool_call_id : String
deriving DecidableEq, Repr

/-- Embeds `ToolContext`: the context of a function tool call with structured JSON
arguments. -/
structure ToolContext (α : Type) extends ToolContextBase α where
  tool_arguments : String
deriving DecidableEq, Repr

/-- Embeds `CustomToolContext`: the context of a custom tool call with free-form
string input. -/
structure CustomToolContext (α : Type) extends ToolContextBase α where
  tool_input : String
deriving DecidableEq, Repr

/-- Embeds `openai.types.responses.ResponseFunctionToolCall` (the fields
`from_agent_context` reads). -/
structure ResponseFunctionToolCall where
  call_id : String
  name : String
  arguments : String
deriving DecidableEq, Repr

/-- Embeds `openai.types.responses.ResponseCustomToolCall` (the fields
`from_agent_context` reads). -/
structure ResponseCustomToolCall where
  call_id : String
  name : String
  input : String
deriving DecidableEq, Repr

/-- Constructing a `ToolContext(...)` dataclass with possibly-omitted
tool-call fields: an omitted field's `default_factory` raises `ValueError`,
and the factories run in dataclass field order (`tool_name`, `tool_call_id`,
`tool_arguments`), so the first omitted field's error surfaces. -/
def makeToolContext (base : RunContextWrapper α) (tool_name : Option String)
    (tool_call_id : Option String) (tool_arguments : Option String) :
    Except String (ToolContext α) :=
  match tool_name with
  | none => .error "tool_name must be passed to ToolContext"
  | some n =>
    match tool_call_id with
    | none => .error "tool_call_id must be passed to ToolContext"
    | some cid =>
      match tool_arguments with
      | none => .error "tool_arguments must be passed to ToolContext"
      | some args =>
        .ok { toRunContextWrapper := base, tool_name := n, tool_call_id := cid,
              tool_arguments := args }

/-- Constructing a `CustomToolContext(...)` dataclass with possibly-omitted
tool-call fields (field order `tool_name`, `tool_call_id`, `tool_input`). -/
def makeCustomToolContext (base : RunContextWrapper α) (tool_name : Option String)
    (tool_call_id : Option String) (tool_input : Option String) :
    Except String (CustomToolContext α) :=
  match tool_name with
  | none => .error "tool_name must be passed to ToolContext"
  | some n =>
    match tool_call_id with
    | none => .error "tool_call_id must be passed to ToolContext"
    | some cid =>
      match tool_input with
      | none => .error "tool_input must be passed to CustomToolContext"
      | some inp =>
        .ok { toRunContextWrapper := base, tool_name := n, tool_call_id := cid,
              tool_input := inp }

/-- Embeds `ToolContext.from_agent_context`: copy every init field of the
`RunContextWrapper` and fill the three tool-call fields from the call. -/
def ToolContext.from_agent_context (context : RunContextWrapper α)
    (tool_call_id : String) (tool_call : ResponseFunctionToolCall) : ToolContext α :=
  { toRunContextWrapper := context
    tool_name := tool_call.name
    tool_call_id := tool_call_id
    tool_arguments := tool_call.arguments }

/-- Embeds `CustomToolContext.from_agent_context`: copy every init field of the
`RunContextWrapper` and fill the three tool-call fields from the call. -/
def CustomToolContext.from_agent_context (context : RunContextWrapper α)
    (tool_call_id : String) (tool_call : ResponseCustomToolCall) : CustomToolContext α :=
  { toRunContextWrapper := context
    tool_name := tool_call.name
    tool_call_id := tool_call_id
    tool_input := tool_call.input }

/-- C9: constructing a `ToolContext` (resp. `CustomToolContext`) without
explicitly supplying `tool_name`, `tool_call_id` or `tool_arguments`
(resp. `tool_input`) raises a `ValueError` naming the missing field, and
every successfully constructed context carries exactly the supplied
tool-call fields (no defaults are substituted). -/
theorem tool_context_requires_all_fields (α : Type) (base : RunContextWrapper α)
    (tn tcid targs tinp : Option String) :
    (∀ ctx : ToolContext α, makeToolContext base tn tcid targs = .ok ctx →
      tn = some ctx.tool_name ∧ tcid = some ctx.tool_call_id ∧
        targs = some ctx.tool_arguments) ∧
    (tn = none → makeToolContext base tn tcid targs
        = .error "tool_name must be passed to ToolContext") ∧
    (tn ≠ none → tcid = none → makeToolContext base tn tcid targs
        = .error "tool_call_id must be passed to ToolContext") ∧
    (tn ≠ none → tcid ≠ none → targs = none → makeToolContext base tn tcid targs
        = .error "tool_arguments must be passed to ToolContext") ∧
    (∀ ctx : CustomToolContext α, makeCustomToolContext base tn tcid tinp = .ok ctx →
      tn = some ctx.tool_name ∧ tcid = some ctx.tool_call_id ∧
        tinp = some ctx.tool_input) ∧
    (tn ≠ none → tcid ≠ none → tinp = none → makeCustomToolContext base tn tcid tinp
        = .error "tool_input must be passed to CustomToolContext") := by
  cases tn <;> cases tcid <;> cases targs <;> cases tinp <;>
    simp [makeToolContext, makeCustomToolContext]

/-- Witness for C9: omitting `tool_call_id` while supplying the other
fields yields the `tool_call_id` ValueError, and a fully supplied
construction succeeds with exactly the supplied fields. -/
theorem tool_context_requires_all_fields_witness :
    (makeToolContext (⟨(), Usage.empty⟩ : RunContextWrapper Unit) (some "foo") none
        (some "{}") = .error "tool_call_id must be passed to ToolContext") ∧
    ∀ ctx : ToolContext Unit,
      makeToolContext (⟨(), Usage.empty⟩ : RunContextWrapper Unit) (some "foo")
          (some "call_1") (some "{}") = .ok ctx →
        some "foo" = some ctx.tool_name ∧ some "call_1" = some ctx.tool_call_id ∧
          some "{}" = some ctx.tool_arguments :=
  ⟨(tool_context_requires_all_fields Unit ⟨(), Usage.empty⟩ (some "foo") none
        (some "{}") none).2.2.1 (by simp) rfl,
    (tool_context_requires_all_fields Unit ⟨(), Usage.empty⟩ (some "foo") (some "call_1")
        (some "{}") none).1⟩

/-- C10: `from_agent_context` fills `tool_name`, `tool_call_id` and
`tool_arguments` (resp. `tool_input`) from the tool call, and copies every
init field inherited from `RunContextWrapper` unchanged from the given
context. -/
theorem from_agent_context_copies_base_and_fills_call_fields (α : Type)
    (context : RunContextWrapper α) (tool_call_id : String)
    (fcall : ResponseFunctionToolCall) (ccall : ResponseCustomToolCall) :
    (ToolContext.from_agent_context context tool_call_id fcall).tool_name = fcall.name ∧
    (ToolContext.from_agent_context context tool_call_id fcall).tool_call_id = tool_call_id ∧
    (ToolContext.from_agent_context context tool_call_id fcall).tool_arguments
        = fcall.arguments ∧
    (ToolContext.from_agent_context context tool_call_id fcall).toRunContextWrapper
        = context ∧
    (CustomToolContext.from_agent_context context tool_call_id ccall).tool_name
        = ccall.name ∧
    (CustomToolContext.from_agent_context context tool_call_id ccall).tool_call_id
        = tool_call_id ∧
    (CustomToolContext.from_agent_context context tool_call_id ccall).tool_input
        = ccall.input ∧
    (CustomToolContext.from_agent_context context tool_call_id ccall).toRunContextWrapper
        = context :=
  ⟨rfl, rfl, rfl, rfl, rfl, rfl, rfl, rfl⟩

/-! ## The run loop and handoffs (modelled from the spec) -/

/-- An input item of a conversation history (`TResponseInputItem`):
a message, a reasoning reference, a tool call or a tool-call output. -/
inductive InputItem where
  | message (role : String) (text : String)
  | reasoning_ref (id : String)
  | function_call (call_id : String) (name : String) (arguments : String)
  | function_call_output (call_id : String) (output : String)
deriving DecidableEq, Repr

/-- Modelled from the spec (§4.4): a handoff's configured input filter —
either the identity or `remove_all_tools` ("drop all prior
tool-call/tool-output items"). -/
inductive InputFilterKind where
  | no_filter
  | remove_all_tools
deriving DecidableEq, Repr

/-- Modelled from the spec (§2, §4.4): an agent with its name, instructions,
tool names and declared handoffs; each handoff carries its tool name, its
input filter and the target agent. -/
inductive Agent where
  | mk (name : String) (instructions : String) (tools : List String)
      (handoffs : List (String × InputFilterKind × Agent))

def Agent.name : Agent → String
  | .mk n _ _ _ => n

def Agent.instructions : Agent → String
  | .mk _ i _ _ => i

def Agent.tools : Agent → List String
  | .mk _ _ ts _ => ts

def Agent.handoffs : Agent → List (String × InputFilterKind × Agent)
  | .mk _ _ _ hs => hs

/-- The tool names of the agent's declared handoffs. -/
def Agent.handoffToolNames (a : Agent) : List String :=
  a.handoffs.map (fun h => h.1)

/-- Resolve a tool name against the agent's declared handoff set. -/
def Agent.findHandoff (a : Agent) (tool : String) : Option (InputFilterKind × Agent) :=
  (a.handoffs.find? (fun h => h.1 == tool)).map (fun h => h.2)

/-- Modelled from the spec (§4.3): "if any handoff call is present, exactly
one handoff is honored (first one wins)" — the first function call of the
turn output whose name resolves in the active agent's handoff set. -/
def first_handoff (a : Agent) : List OutputItem → Option (String × InputFilterKind × Agent)
  | [] => none
  | .function_tool_call _ _ name _ :: rest =>
    match a.findHandoff name with
    | some (fk, target) => some (name, fk, target)
    | none => first_handoff a rest
  | _ :: rest => first_handoff a rest

/-- A turn's output item fed back as an input item of the next turn. -/
def OutputItem.to_input : OutputItem → InputItem
  | .message _ text => .message "assistant" text
  | .function_tool_call _ call_id name arguments => .function_call call_id name arguments
  | .reasoning id _ => .reasoning_ref id

/-- Tool-call and tool-call-output input items — the items
`remove_all_tools` drops. -/
def InputItem.is_tool_item : InputItem → Bool
  | .function_call _ _ _ => true
  | .function_call_output _ _ => true
  | _ => false

/-- Modelled from the spec (§4.4): apply a handoff's input filter, a pure
function on the accumulated input. -/
def apply_filter : InputFilterKind → List InputItem → List InputItem
  | .no_filter, l => l
  | .remove_all_tools, l => l.filter (fun it => !it.is_tool_item)

/-- A function call of the turn output that is an ordinary tool call of the
active agent (spec §4.3 partitions tool calls and handoff calls
disjointly). -/
def is_tool_call (a : Agent) : OutputItem → Bool
  | .function_tool_call _ _ name _ => a.tools.contains name && (a.findHandoff name).isNone
  | _ => false

/-- The tool-output input items produced by executing the turn's tool calls
(tool execution is the external collaborator `execTool`). -/
def tool_outputs (execTool : String → String → String) (a : Agent)
    (out : List OutputItem) : List InputItem :=
  (out.filter (is_tool_call a)).filterMap (fun item =>
    match item with
    | .function_tool_call _ call_id name arguments =>
      some (.function_call_output call_id (execTool name arguments))
    | _ => none)

/-- What one turn of the run records: the active agent's name, the
instructions and tools passed to the model, the input of the turn, and the
events relayed to the consumer for the turn. -/
structure TurnRecord where
  agent_name : String
  instructions : String
  tools : List String
  input : List InputItem
  events : List StreamEvent

/-- Modelled from the spec (§4.3, §4.4): the streamed run loop, driven by
the scripted turn outputs (the FakeModel queue). Each turn relays the
merged raw + run-item events; a turn with a handoff call honors the first
one, emits one `agent_updated` event referencing the target, appends the
turn's items and tool outputs to history, applies the handoff's input
filter, and continues with the target agent; a turn with tool calls and no
handoff appends the tool outputs and continues; a turn with neither ends
the run. -/
def run_loop (execTool : String → String → String) :
    Agent → List InputItem → List (List OutputItem) → List TurnRecord
  | _, _, [] => []
  | a, input, out :: rest =>
    let record : TurnRecord := ⟨a.name, a.instructions, a.tools, input,
      synthesize a.handoffToolNames (streamEvents out none)⟩
    let new_input := input ++ out.map OutputItem.to_input ++ tool_outputs execTool a out
    match first_handoff a out with
    | some (_, fk, target) =>
      { record with events := record.events ++ [.agent_updated target.name] } ::
        run_loop execTool target (apply_filter fk new_input) rest
    | none =>
      if (out.filter (is_tool_call a)).isEmpty then [record]
      else record :: run_loop execTool a new_input rest

def is_agent_updated : StreamEvent → Bool
  | .agent_updated _ => true
  | _ => false

theorem synthesize_countP_agent_updated (hn : List String) (evs : List RawEvent) :
    (synthesize hn evs).countP is_agent_updated = 0 := by
  rw [List.countP_eq_zero]
  intro se hse
  rcases List.mem_flatMap.mp hse with ⟨e, _, hmem⟩
  cases e <;> simp only [expandEvent, List.mem_cons, List.not_mem_nil, or_false] at hmem <;>
    rcases hmem with h | h <;> (try subst h) <;> simp_all [is_agent_updated]

theorem run_loop_cons_handoff (execTool : String → String → String) (a : Agent)
    (input : List InputItem) (out : List OutputItem) (rest : List (List OutputItem))
    (hname : String) (fk : InputFilterKind) (target : Agent)
    (hfh : first_handoff a out = some (hname, fk, target)) :
    run_loop execTool a input (out :: rest)
      = ⟨a.name, a.instructions, a.tools, input,
          synthesize a.handoffToolNames (streamEvents out none)
            ++ [.agent_updated target.name]⟩ ::
        run_loop execTool target
          (apply_filter fk (input ++ out.map OutputItem.to_input
            ++ tool_outputs execTool a out)) rest := by
  simp [run_loop, hfh]

theorem run_loop_cons_stop (execTool : String → String → String) (a : Agent)
    (input : List InputItem) (out : List OutputItem) (rest : List (List OutputItem))
    (hfh : first_handoff a out = none)
    (htools : (out.filter (is_tool_call a)).isEmpty = true) :
    run_loop execTool a input (out :: rest)
      = [⟨a.name, a.instructions, a.tools, input,
          synthesize a.handoffToolNames (streamEvents out none)⟩] := by
  simp [run_loop, hfh, htools]

theorem run_loop_cons_tools (execTool : String → String → String) (a : Agent)
    (input : List InputItem) (out : List OutputItem) (rest : List (List OutputItem))
    (hfh : first_handoff a out = none)
    (htools : (out.filter (is_tool_call a)).isEmpty = false) :
    run_loop execTool a input (out :: rest)
      = ⟨a.name, a.instructions, a.tools, input,
          synthesize a.handoffToolNames (streamEvents out none)⟩ ::
        run_loop execTool a
          (input ++ out.map OutputItem.to_input ++ tool_outputs execTool a out) rest := by
  simp [run_loop, hfh, htools]

theorem run_loop_over_no_handoff_turns (execTool : String → String → String)
    (pre : List (List OutputItem)) (rest : List (List OutputItem)) (a : Agent) :
    ∀ input : List InputItem,
      (∀ out ∈ pre, first_handoff a out = none ∧
        (out.filter (is_tool_call a)).isEmpty = false) →
      ∃ recs input', run_loop execTool a input (pre ++ rest)
          = recs ++ run_loop execTool a input' rest ∧
        recs.length = pre.length ∧
        ∀ r ∈ recs, r.events.countP is_agent_updated = 0 := by
  induction pre with
  | nil =>
    intro input _
    exact ⟨[], input, rfl, rfl, by intro r hr; cases hr⟩
  | cons out pre' ih =>
    intro input hpre
    have h0 := hpre out (List.mem_cons_self out pre')
    obtain ⟨recs, input', heq, hlen, hupd⟩ :=
      ih (input ++ out.map OutputItem.to_input ++ tool_outputs execTool a out)
        (fun o ho => hpre o (List.mem_cons_of_mem out ho))
    refine ⟨⟨a.name, a.instructions, a.tools, input,
        synthesize a.handoffToolNames (streamEvents out none)⟩ :: recs, input', ?_, ?_, ?_⟩
    · rw [List.cons_append, run_loop_cons_tools execTool a input out (pre' ++ rest) h0.1 h0.2,
        heq, List.cons_append]
    · simp [hlen]
    · intro r hr
      rcases List.mem_cons.mp hr with h | h
      · subst h
        exact synthesize_countP_agent_updated _ _
      · exact hupd r h

theorem run_loop_no_handoff_all (execTool : String → String → String)
    (sched : List (List OutputItem)) (a : Agent) :
    ∀ input : List InputItem,
      (∀ out ∈ sched, first_handoff a out = none) →
      ∀ r ∈ run_loop execTool a input sched,
        r.agent_name = a.name ∧ r.instructions = a.instructions ∧ r.tools = a.tools ∧
          r.events.countP is_agent_updated = 0 := by
  induction sched with
  | nil =>
    intro input _ r hr
    cases hr
  | cons out rest ih =>
    intro input hsched r hr
    have h0 := hsched out (List.mem_cons_self out rest)
    by_cases he : (out.filter (is_tool_call a)).isEmpty
    · rw [run_loop_cons_stop execTool a input out rest h0 he] at hr
      rcases List.mem_singleton.mp hr with h
      subst h
      exact ⟨rfl, rfl, rfl, synthesize_countP_agent_updated _ _⟩
    · rw [run_loop_cons_tools execTool a input out rest h0 (by simpa using he)] at hr
      rcases List.mem_cons.mp hr with h | h
      · subst h
        exact ⟨rfl, rfl, rfl, synthesize_countP_agent_updated _ _⟩
      · exact ih _ (fun o ho => hsched o (List.mem_cons_of_mem out ho)) r h

theorem run_loop_head_input (execTool : String → String → String) (a : Agent)
    (input : List InputItem) (sched : List (List OutputItem)) :
    ∀ r, (run_loop execTool a input sched).head? = some r → r.input = input := by
  cases sched with
  | nil =>
    intro r hr
    cases hr
  | cons out rest =>
    intro r hr
    match hfh : first_handoff a out with
    | some (nm, fk, target) =>
      rw [run_loop_cons_handoff execTool a input out rest nm fk target hfh] at hr
      simp only [List.head?_cons, Option.some_inj] at hr
      rw [← hr]
    | none =>
      by_cases he : (out.filter (is_tool_call a)).isEmpty
      · rw [run_loop_cons_stop execTool a input out rest hfh he] at hr
        simp only [List.head?_cons, Option.some_inj] at hr
        rw [← hr]
      · rw [run_loop_cons_tools execTool a input out rest hfh (by simpa using he)] at hr
        simp only [List.head?_cons, Option.some_inj] at hr
        rw [← hr]

theorem apply_filter_remove_all_tools_clean (l : List InputItem) :
    (apply_filter .remove_all_tools l).countP InputItem.is_tool_item = 0 := by
  rw [List.countP_eq_zero]
  intro it hit
  rcases List.mem_filter.mp hit with ⟨_, hb⟩
  simp only [Bool.not_eq_eq_eq_not, Bool.not_true] at hb
  simp [hb]

/-- C8: for a run whose scripted turns contain exactly one handoff call — no
turn before `t` triggers a handoff (those turns carry tool calls, so the run
continues), turn `t` contains a handoff call resolving to `target`, and no
later turn triggers a handoff of `target` — exactly one `agent_updated`
event is emitted in the run's whole event stream, it references the
handoff's target agent, every turn after the handoff runs with the target
agent's instructions and tools, and when the handoff's input filter is
`remove_all_tools` the next turn's input contains no tool-call or
tool-output items. -/
theorem handoff_emits_single_agent_update
    (execTool : String → String → String) (agent₀ : Agent) (input₀ : List InputItem)
    (sched : List (List OutputItem)) (t : Nat) (ht : t < sched.length)
    (hname : String) (fk : InputFilterKind) (target : Agent)
    (hpre : ∀ out ∈ sched.take t, first_handoff agent₀ out = none ∧
        (out.filter (is_tool_call agent₀)).isEmpty = false)
    (hhand : first_handoff agent₀ (sched.get ⟨t, ht⟩) = some (hname, fk, target))
    (hpost : ∀ out ∈ sched.drop (t + 1), first_handoff target out = none) :
    (((run_loop execTool agent₀ input₀ sched).map TurnRecord.events).flatten.countP
        is_agent_updated = 1) ∧
    StreamEvent.agent_updated target.name
        ∈ ((run_loop execTool agent₀ input₀ sched).map TurnRecord.events).flatten ∧
    (∀ r ∈ (run_loop execTool agent₀ input₀ sched).drop (t + 1),
        r.agent_name = target.name ∧ r.instructions = target.instructions ∧
          r.tools = target.tools) ∧
    (fk = .remove_all_tools →
      ∀ r, (run_loop execTool agent₀ input₀ sched)[t + 1]? = some r →
        r.input.countP InputItem.is_tool_item = 0) := by
  have hsplit : sched = sched.take t ++ (sched.get ⟨t, ht⟩ :: sched.drop (t + 1)) := by
    conv_lhs => rw [← List.take_append_drop t sched]
    rw [List.drop_eq_getElem_cons ht]
    rfl
  obtain ⟨recs, input', heq, hlen, hupd⟩ :=
    run_loop_over_no_handoff_turns execTool (sched.take t)
      (sched.get ⟨t, ht⟩ :: sched.drop (t + 1)) agent₀ input₀ hpre
  have hlent : recs.length = t := by
    rw [hlen, List.length_take]
    omega
  have hrun : run_loop execTool agent₀ input₀ sched
      = recs ++ (⟨agent₀.name, agent₀.instructions, agent₀.tools, input',
          synthesize agent₀.handoffToolNames (streamEvents (sched.get ⟨t, ht⟩) none)
            ++ [.agent_updated target.name]⟩ ::
        run_loop execTool target
          (apply_filter fk (input' ++ (sched.get ⟨t, ht⟩).map OutputItem.to_input
            ++ tool_outputs execTool agent₀ (sched.get ⟨t, ht⟩))) (sched.drop (t + 1))) := by
    conv_lhs => rw [hsplit]
    rw [heq, run_loop_cons_handoff execTool agent₀ input' _ _ hname fk target hhand]
  have hpostAll := run_loop_no_handoff_all execTool (sched.drop (t + 1)) target
    (apply_filter fk (input' ++ (sched.get ⟨t, ht⟩).map OutputItem.to_input
      ++ tool_outputs execTool agent₀ (sched.get ⟨t, ht⟩))) hpost
  have hrecs0 : ((recs.map TurnRecord.events).flatten).countP is_agent_updated = 0 := by
    rw [List.countP_flatten]
    apply List.sum_eq_zero
    intro x hx
    rcases List.mem_map.mp hx with ⟨ev, hev, hx'⟩
    rcases List.mem_map.mp hev with ⟨r, hr, hev'⟩
    rw [← hx', ← hev']
    exact hupd r hr
  have hpost0 : (((run_loop execTool target
      (apply_filter fk (input' ++ (sched.get ⟨t, ht⟩).map OutputItem.to_input
        ++ tool_outputs execTool agent₀ (sched.get ⟨t, ht⟩)))
      (sched.drop (t + 1))).map TurnRecord.events).flatten).countP is_agent_updated = 0 := by
    rw [List.countP_flatten]
    apply List.sum_eq_zero
    intro x hx
    rcases List.mem_map.mp hx with ⟨ev, hev, hx'⟩
    rcases List.mem_map.mp hev with ⟨r, hr, hev'⟩
    rw [← hx', ← hev']
    exact (hpostAll r hr).2.2.2
  have hdrop : (run_loop execTool agent₀ input₀ sched).drop (t + 1)
      = run_loop execTool target
          (apply_filter fk (input' ++ (sched.get ⟨t, ht⟩).map OutputItem.to_input
            ++ tool_outputs execTool agent₀ (sched.get ⟨t, ht⟩))) (sched.drop (t + 1)) := by
    rw [hrun, show t + 1 = recs.length + 1 from by omega, List.drop_append 1]
    rfl
  refine ⟨?_, ?_, ?_, ?_⟩
  · rw [hrun]
    simp only [List.map_append, List.map_cons, List.flatten_append, List.flatten_cons,
      List.countP_append, hrecs0, hpost0, synthesize_countP_agent_updated]
    rfl
  · rw [hrun]
    refine List.mem_flatten.mpr
      ⟨synthesize agent₀.handoffToolNames (streamEvents (sched.get ⟨t, ht⟩) none)
        ++ [.agent_updated target.name], ?_, ?_⟩
    · exact List.mem_map.mpr ⟨_, List.mem_append_right recs (List.mem_cons_self _ _), rfl⟩
    · exact List.mem_append_right _ (List.mem_singleton.mpr rfl)
  · intro r hr
    rw [hdrop] at hr
    exact ⟨(hpostAll r hr).1, (hpostAll r hr).2.1, (hpostAll r hr).2.2.1⟩
  · intro hfk r hr
    rw [← List.head?_drop, hdrop] at hr
    have hinp := run_loop_head_input execTool target
      (apply_filter fk (input' ++ (sched.get ⟨t, ht⟩).map OutputItem.to_input
        ++ tool_outputs execTool agent₀ (sched.get ⟨t, ht⟩))) (sched.drop (t + 1)) r hr
    rw [hinp, hfk]
    exact apply_filter_remove_all_tools_clean _

/-- The handoff target of the witness run (the `EnglishAgent` of
`test_stream_events_main_with_handoff`). -/
def wEnglishAgent : Agent := .mk "EnglishAgent" "You only speak English." [] []

/-- The starting agent of the witness run: tools `["foo"]` and one declared
handoff to `wEnglishAgent` with the `remove_all_tools` input filter. -/
def wTriageAgent : Agent :=
  .mk "TriageAgent" "Handoff to the appropriate agent based on the language of the request."
    ["foo"] [("transfer_to_EnglishAgent", .remove_all_tools, wEnglishAgent)]

/-- The scripted turn outputs of the witness run: a message, a tool call and
a handoff call, then a final message. -/
def wSched : List (List OutputItem) :=
  [[OutputItem.message "m1" "Hello",
    OutputItem.function_tool_call "f1" "c1" "foo" "",
    OutputItem.function_tool_call "f2" "c2" "transfer_to_EnglishAgent" ""],
   [OutputItem.message "m2" "Done"]]

/-- The turn records of the witness run. -/
def wRecords : List TurnRecord :=
  run_loop (fun _ _ => "tool_result") wTriageAgent [InputItem.message "user" "Start"] wSched

/-- Witness for C8: in the concrete two-turn handoff run, exactly one
`agent_updated` event is emitted, it references `EnglishAgent`, the second
turn runs with `EnglishAgent`'s instructions and tools, and its input holds
no tool items. -/
theorem handoff_emits_single_agent_update_witness :
    ((wRecords.map TurnRecord.events).flatten.countP is_agent_updated = 1) ∧
    StreamEvent.agent_updated "EnglishAgent" ∈ (wRecords.map TurnRecord.events).flatten ∧
    (∀ r ∈ wRecords.drop 1, r.agent_name = "EnglishAgent" ∧
        r.instructions = "You only speak English." ∧ r.tools = []) ∧
    (InputFilterKind.remove_all_tools = InputFilterKind.remove_all_tools →
      ∀ r, wRecords[1]? = some r → r.input.countP InputItem.is_tool_item = 0) :=
  handoff_emits_single_agent_update (fun _ _ => "tool_result") wTriageAgent
    [InputItem.message "user" "Start"] wSched 0 (by decide)
    "transfer_to_EnglishAgent" .remove_all_tools wEnglishAgent
    (by intro out ho; simp at ho)
    rfl
    (by
      intro out ho
      have h : out = [OutputItem.message "m2" "Done"] := by
        simpa [wSched] using ho
      subst h
      rfl)
